import Mathlib

/-
Verification of the GDELT ingest and merge modules of Project-Blue-Lance
(src/bluelance/gdeltingest.py and src/bluelance/feature_merge.py).

The Python modules are shallowly embedded: pure helpers become Lean
functions over List Char / String / Int; the retry loop becomes a fuel
recursion over an abstract transport; the resumable driver becomes an
executable step function on a state of durable fields (cursor, done set,
cache, output rows) plus a volatile phase, with an explicit crash event
that resets only the volatile part.  Uncaught Python exceptions are
modelled by a dedicated result constructor.
-/

namespace BlueLance

/-
Character-level helpers mirroring the Python string primitives used by
the source (str.strip, substring test, startswith/endswith, str.split).
The whitespace set is Python's: space, tab, newline, carriage return,
vertical tab, form feed.
-/

def pyIsSpace (c : Char) : Bool :=
  c = ' ' || c = '\t' || c = '\n' || c = '\r' || c = '\x0b' || c = '\x0c'

def charsStarts : List Char → List Char → Bool
  | _, [] => true
  | [], _ :: _ => false
  | a :: as, b :: bs => a = b && charsStarts as bs

def charsEnds (hay pat : List Char) : Bool :=
  charsStarts hay.reverse pat.reverse

def charsContains : List Char → List Char → Bool
  | [], pat => pat.isEmpty
  | a :: t, pat => charsStarts (a :: t) pat || charsContains t pat

def strContains (hay pat : String) : Bool :=
  charsContains hay.data pat.data

def pyStripChars (l : List Char) : List Char :=
  ((l.dropWhile pyIsSpace).reverse.dropWhile pyIsSpace).reverse

def pyStrip (s : String) : String :=
  String.mk (pyStripChars s.data)

/-- Whitespace-separated words of a character list, as produced by
Python's str.split() with no arguments: runs of whitespace separate
words, and no empty words are produced. -/
def pyWordsAux : List Char → List Char → List (List Char)
  | [], acc => if acc.isEmpty then [] else [acc.reverse]
  | c :: t, acc =>
    if pyIsSpace c then
      (if acc.isEmpty then pyWordsAux t [] else acc.reverse :: pyWordsAux t [])
    else pyWordsAux t (c :: acc)

def pyWords (l : List Char) : List (List Char) :=
  pyWordsAux l []

/-- Join a list of words with single spaces, as " ".join does. -/
def joinSpace : List (List Char) → List Char
  | [] => []
  | [w] => w
  | w :: ws => w ++ ' ' :: joinSpace ws

/-- Source gdeltingest.py line 105: normalize_country returns
" ".join(str(country).strip().split()): strip the ends and collapse
internal whitespace runs to single spaces. -/
def normalize_country (country : String) : String :=
  String.mk (joinSpace (pyWords (pyStripChars country.data)))

/-- Source gdeltingest.py line 39: WINDOW_DAYS = 30. -/
def WINDOW_DAYS : Nat := 30

/-- Source gdeltingest.py line 41: MAX_RETRIES = 6. -/
def MAX_RETRIES : Nat := 6

/-- Source gdeltingest.py lines 277-278: the done-set key
f"{normalize_country(country)}|{week_str}|{window_days}d". -/
def done_key (country week_str : String) (window_days : Nat) : String :=
  normalize_country country ++ "|" ++ week_str ++ "|" ++ toString window_days ++ "d"

/-- Source gdeltingest.py lines 281-282: the cache key
f"{normalize_country(country)}|{week_str}|{window_days}d|{topic}". -/
def cache_key (country week_str : String) (window_days : Nat) (topic : String) : String :=
  normalize_country country ++ "|" ++ week_str ++ "|" ++ toString window_days ++ "d|" ++ topic

/-- Source gdeltingest.py lines 52-69: COUNTRY_QUERY_CANDIDATES, the ordered
candidate expressions for countries whose plain name the API rejects. -/
def COUNTRY_QUERY_CANDIDATES (country : String) : Option (List String) :=
  if country = "Iran" then
    some ["\"Islamic Republic of Iran\"",
          "\"Iran (Islamic Republic of)\""]
  else if country = "Iraq" then
    some ["(\"Republic of Iraq\" OR Iraqi OR Baghdad)",
          "(Iraqi OR Baghdad)"]
  else if country = "Mali" then
    some ["(\"Republic of Mali\" OR Malian OR Bamako)",
          "(Malian OR Bamako)"]
  else if country = "Peru" then
    some ["(\"Republic of Peru\" OR Peruvian OR Lima)",
          "(Peruvian OR Lima)"]
  else none

/-- Source gdeltingest.py line 254: candidates =
COUNTRY_QUERY_CANDIDATES.get(country, [f-quoted country]) after
country = normalize_country(country). -/
def candidate_exprs (country : String) : List String :=
  (COUNTRY_QUERY_CANDIDATES (normalize_country country)).getD
    ["\"" ++ normalize_country country ++ "\""]

/-- ASCII lowercasing of one character, the fragment of Python str.lower
relevant to the ASCII error fingerprints. -/
def lowerChar (c : Char) : Char :=
  if 'A' ≤ c && c ≤ 'Z' then Char.ofNat (c.toNat + 32) else c

def strToLower (s : String) : String :=
  String.mk (s.data.map lowerChar)

/-- Source gdeltingest.py lines 159-167: is_semantic_error lowercases the
message and looks for the known permanent-error fingerprints. -/
def is_semantic_error (msg : String) : Bool :=
  let m := strToLower msg
  strContains m "the specified phrase is too short" ||
  strContains m "boolean or\x27s may only appear inside of a () clause" ||
  strContains m "parentheses may only be used around or\x27d statements" ||
  strContains m "query is invalid"

/-- Source gdeltingest.py lines 170-175: _wrap_or strips the expression and,
when it contains " OR " and does not both start with "(" and end with ")",
wraps it in parentheses. -/
def wrapOrChars (l : List Char) : List Char :=
  let s := pyStripChars l
  if charsContains s " OR ".data &&
     !(charsStarts s "(".data && charsEnds s ")".data) then
    '(' :: (s ++ [')'])
  else s

def _wrap_or (expr : String) : String :=
  String.mk (wrapOrChars expr.data)

/-- Source gdeltingest.py lines 178-180: build_query joins the wrapped
country expression and the topic query with " AND ". -/
def build_query (country_expr topic_query : String) : String :=
  _wrap_or country_expr ++ " AND " ++ topic_query

/-
Parenthesization analysis for C8.  parenDelta tracks parenthesis depth;
tlORAux scans a character list and reports an occurrence of " OR " that
starts at depth 0 (a top-level, unparenthesized OR).
-/

def parenDelta (c : Char) (d : Int) : Int :=
  if c = '(' then d + 1 else if c = ')' then d - 1 else d

def tlORAux : List Char → Int → Bool
  | [], _ => false
  | c :: t, d =>
    (decide (d = 0) && charsStarts (c :: t) " OR ".data) || tlORAux t (parenDelta c d)

def hasTopLevelOR (s : String) : Bool :=
  tlORAux s.data 0

/-- Parenthesis discipline of a character list: scanning from depth d, the
depth never becomes negative before a character and is nonnegative at the
end (balanced-or-open parentheses, never over-closed). -/
def nonnegFrom : List Char → Int → Bool
  | [], d => decide (0 ≤ d)
  | c :: t, d => decide (0 ≤ d) && nonnegFrom t (parenDelta c d)

/-- Depth stays at least one before every character of the list. -/
def posFrom : List Char → Int → Bool
  | [], _ => true
  | c :: t, d => decide (1 ≤ d) && posFrom t (parenDelta c d)

theorem parenDelta_sub_one (c : Char) (d : Int) :
    parenDelta c (d - 1) = parenDelta c d - 1 := by
  unfold parenDelta
  split <;> [ring; skip]
  split <;> ring

theorem parenDelta_add_one (c : Char) (d : Int) :
    parenDelta c (d + 1) = parenDelta c d + 1 := by
  unfold parenDelta
  split <;> [ring; skip]
  split <;> ring

theorem tlORAux_of_posFrom :
    ∀ (l : List Char) (d : Int), posFrom l d = true → tlORAux l d = false := by
  intro l
  induction l with
  | nil => intro d _; rfl
  | cons c t ih =>
      intro d h
      simp only [posFrom, Bool.and_eq_true, decide_eq_true_eq] at h
      obtain ⟨h1, h2⟩ := h
      simp only [tlORAux, Bool.or_eq_false_iff, Bool.and_eq_false_iff]
      constructor
      · left
        simp only [decide_eq_false_iff_not]
        omega
      · exact ih (parenDelta c d) h2

theorem posFrom_append_close :
    ∀ (l : List Char) (d : Int), nonnegFrom l d = true →
      posFrom (l ++ [')']) (d + 1) = true := by
  intro l
  induction l with
  | nil =>
      intro d h
      simp only [nonnegFrom, decide_eq_true_eq] at h
      simp only [List.nil_append, posFrom, Bool.and_eq_true, decide_eq_true_eq]
      exact ⟨by omega, trivial⟩
  | cons c t ih =>
      intro d h
      simp only [nonnegFrom, Bool.and_eq_true, decide_eq_true_eq] at h
      obtain ⟨h1, h2⟩ := h
      simp only [List.cons_append, posFrom, Bool.and_eq_true, decide_eq_true_eq]
      refine ⟨by omega, ?_⟩
      rw [parenDelta_add_one]
      exact ih (parenDelta c d) h2

/-- Source gdeltingest.py lines 27/380-384: one work unit is a (country,
week) pair; the window is the constant WINDOW_DAYS. -/
structure WorkUnit where
  country : String
  week : String
deriving DecidableEq

/-- Source gdeltingest.py lines 350-353: main builds each week's country
list from normalized country names, so the WorkUnit carries the
normalized spelling. -/
def mk_work_unit (country week_str : String) : WorkUnit :=
  ⟨normalize_country country, week_str⟩

/-- C8 counterexample: the expression "(a) OR (b)" contains a top-level
disjunction, yet _wrap_or passes it through unchanged because it already
starts with "(" and ends with ")"; the issued query therefore keeps an
unparenthesized top-level OR in its country part. -/
theorem c8_wrap_or_counterexample :
    hasTopLevelOR "(a) OR (b)" = true ∧
    _wrap_or "(a) OR (b)" = "(a) OR (b)" ∧
    hasTopLevelOR (build_query "(a) OR (b)" "(protest OR riot)") = true :=
  ⟨by decide, by decide, by decide⟩

/-- C8 (amended): for every country expression that contains " OR ", does
not already both start with "(" and end with ")", and never over-closes
its parentheses, build_query wraps the stripped expression in parentheses
and the resulting country part contains no top-level unparenthesized OR.
Expressions already delimited by an opening "(" and a closing ")" are
passed through unchanged, even when, as in "(a) OR (b)", their top-level
OR is not actually enclosed. -/
theorem c8_wrap_or_parenthesizes (expr topic_query : String)
    (h1 : charsContains (pyStripChars expr.data) " OR ".data = true)
    (h2 : (charsStarts (pyStripChars expr.data) "(".data &&
           charsEnds (pyStripChars expr.data) ")".data) = false)
    (h3 : nonnegFrom (pyStripChars expr.data) 0 = true) :
    _wrap_or expr = "(" ++ pyStrip expr ++ ")" ∧
    hasTopLevelOR (_wrap_or expr) = false ∧
    build_query expr topic_query = _wrap_or expr ++ " AND " ++ topic_query := by
  have hcond : (charsContains (pyStripChars expr.data) " OR ".data &&
      !(charsStarts (pyStripChars expr.data) "(".data &&
        charsEnds (pyStripChars expr.data) ")".data)) = true := by
    rw [h1, h2]; rfl
  have hwrap : _wrap_or expr = "(" ++ pyStrip expr ++ ")" := by
    simp only [_wrap_or, wrapOrChars, hcond, if_true]
    rfl
  refine ⟨hwrap, ?_, rfl⟩
  rw [hwrap]
  show tlORAux ('(' :: (pyStripChars expr.data ++ [')'])) 0 = false
  have h4 : posFrom (pyStripChars expr.data ++ [')']) 1 = true := by
    have h5 := posFrom_append_close (pyStripChars expr.data) 0 h3
    simpa using h5
  have h6 : tlORAux (pyStripChars expr.data ++ [')']) 1 = false :=
    tlORAux_of_posFrom _ _ h4
  simp only [tlORAux, parenDelta]
  simp only [charsStarts]
  simpa using h6

/-- Witness for c8_wrap_or_parenthesizes at the concrete Peru fallback
expression " Peruvian OR Lima ". -/
theorem c8_wrap_or_parenthesizes_witness :
    (charsContains (pyStripChars (" Peruvian OR Lima ").data) " OR ".data = true ∧
     (charsStarts (pyStripChars (" Peruvian OR Lima ").data) "(".data &&
      charsEnds (pyStripChars (" Peruvian OR Lima ").data) ")".data) = false ∧
     nonnegFrom (pyStripChars (" Peruvian OR Lima ").data) 0 = true) ∧
    (_wrap_or " Peruvian OR Lima " = "(" ++ pyStrip " Peruvian OR Lima " ++ ")" ∧
     hasTopLevelOR (_wrap_or " Peruvian OR Lima ") = false ∧
     build_query " Peruvian OR Lima " "(protest OR riot)"
       = _wrap_or " Peruvian OR Lima " ++ " AND " ++ "(protest OR riot)") :=
  ⟨⟨by decide, by decide, by decide⟩,
   c8_wrap_or_parenthesizes " Peruvian OR Lima " "(protest OR riot)"
     (by decide) (by decide) (by decide)⟩

/-- C10: the ingest driver normalizes country spellings (strip plus
collapse of internal whitespace runs, as embedded in normalize_country)
before producing done keys, cache keys, candidate query expressions and
work units; hence two upstream spellings that normalize equally yield
identical done keys, identical cache keys, the same candidate query
expressions and the same WorkUnit. -/
theorem c10_normalized_spellings_agree (a b week_str : String) (w : Nat) (t : String)
    (h : normalize_country a = normalize_country b) :
    done_key a week_str w = done_key b week_str w ∧
    cache_key a week_str w t = cache_key b week_str w t ∧
    candidate_exprs a = candidate_exprs b ∧
    mk_work_unit a week_str = mk_work_unit b week_str := by
  unfold done_key cache_key candidate_exprs mk_work_unit
  rw [h]
  exact ⟨rfl, rfl, rfl, rfl⟩

/-- Witness for c10_normalized_spellings_agree at two spellings of Costa
Rica that differ only in whitespace. -/
theorem c10_normalized_spellings_agree_witness :
    normalize_country "  Costa \t  Rica " = normalize_country "Costa Rica" ∧
    (done_key "  Costa \t  Rica " "2024-01-05" WINDOW_DAYS
       = done_key "Costa Rica" "2024-01-05" WINDOW_DAYS ∧
     cache_key "  Costa \t  Rica " "2024-01-05" WINDOW_DAYS "violence"
       = cache_key "Costa Rica" "2024-01-05" WINDOW_DAYS "violence" ∧
     candidate_exprs "  Costa \t  Rica " = candidate_exprs "Costa Rica" ∧
     mk_work_unit "  Costa \t  Rica " "2024-01-05" = mk_work_unit "Costa Rica" "2024-01-05") :=
  ⟨by decide,
   c10_normalized_spellings_agree "  Costa \t  Rica " "Costa Rica" "2024-01-05"
     WINDOW_DAYS "violence" (by decide)⟩

/-
JSON values, for the payloads returned by the GDELT document API.
Numbers are modelled as integers: the timelinevolraw endpoint returns
integer article counts, and floating point is out of scope.
-/

inductive JVal where
  | jnull : JVal
  | jbool : Bool → JVal
  | jnum : Int → JVal
  | jstr : String → JVal
  | jarr : List JVal → JVal
  | jobj : List (String × JVal) → JVal

/-- Python dict.get(key) over the field list of an object. -/
def objGet (fields : List (String × JVal)) (k : String) : Option JVal :=
  (fields.find? (fun p => p.1 = k)).map (fun p => p.2)

/-- Python truthiness of a JSON value (None, False, 0, "", [], {} are
falsy). -/
def jFalsy : JVal → Bool
  | .jnull => true
  | .jbool b => !b
  | .jnum n => n = 0
  | .jstr s => s = ""
  | .jarr xs => xs.isEmpty
  | .jobj fs => fs.isEmpty

/-- Result of a piece of Python code that may raise an uncaught
exception. -/
inductive PyResult (α : Type) where
  | ok : α → PyResult α
  | raised : PyResult α
deriving DecidableEq

/-- Python int(x) applied to a JSON value: integers pass through, bools
become 0/1, strings are parsed as optionally signed decimal integers,
everything else raises (and the caller catches). -/
def pyToInt : JVal → Option Int
  | .jnum n => some n
  | .jbool b => some (if b then 1 else 0)
  | .jstr s => s.toInt?
  | _ => none

/-- Source gdeltingest.py lines 141-145 and 150-154: the contribution of
one point p, computed as int(p.get("value", 0)) inside a try/except that
swallows any failure (a non-dict p, or a non-numeric value, contributes
nothing). -/
def pointValue : JVal → Int
  | .jobj fs =>
    match pyToInt ((objGet fs "value").getD (.jnum 0)) with
    | some n => n
    | none => 0
  | _ => 0

/-- Source gdeltingest.py line 141: series.get("data", []) followed by
iteration.  A non-dict series raises AttributeError outside the
try/except; a non-iterable "data" raises TypeError outside it.  Iterating
a string or a dict yields elements whose own p.get raises inside the
try/except, so they contribute nothing; they are modelled by the empty
point list, which contributes the same total. -/
def seriesPoints : JVal → PyResult (List JVal)
  | .jobj fs =>
    match (objGet fs "data").getD (.jarr []) with
    | .jarr xs => .ok xs
    | .jstr _ => .ok []
    | .jobj _ => .ok []
    | _ => .raised
  | _ => .raised

/-- Sum of the point contributions of every series, the common-shape
branch of extract_timeline_total (source lines 139-146). -/
def sumSeries : List JVal → PyResult Int
  | [] => .ok 0
  | s :: rest =>
    match seriesPoints s with
    | .raised => .raised
    | .ok ps =>
      match sumSeries rest with
      | .raised => .raised
      | .ok r => .ok ((ps.map pointValue).foldl (fun a b => a + b) 0 + r)

/-- Source gdeltingest.py lines 148-154: the fallback branch treats the
timeline as a flat list of points. -/
def fallbackSum (tl : List JVal) : Int :=
  (tl.map pointValue).foldl (fun a b => a + b) 0

/-- Source gdeltingest.py line 139: the common-shape test
isinstance(timeline[0], dict) and "data" in timeline[0]. -/
def branchACond : JVal → Bool
  | .jobj fs => (objGet fs "data").isSome
  | _ => false

/-- Source gdeltingest.py lines 130-156: extract_timeline_total.  The
payload is the parsed JSON object; a falsy or absent timeline gives 0;
a nonempty list whose first element is a dict with a "data" key is summed
series by series; any other list is summed as a flat point list; a truthy
non-list timeline falls through both branches and gives 0. -/
def extract_timeline_total (payload : List (String × JVal)) : PyResult Int :=
  match objGet payload "timeline" with
  | none => .ok 0
  | some tv =>
    if jFalsy tv then .ok 0
    else
      match tv with
      | .jarr tl =>
        match tl with
        | [] => .ok 0
        | first :: _ =>
          if branchACond first then sumSeries tl
          else .ok (fallbackSum tl)
      | _ => .ok 0

/-- Well-formed point: a dict whose "value" field, defaulted to 0, is a
number. -/
def pointWF : JVal → Bool
  | .jobj fs =>
    match (objGet fs "value").getD (.jnum 0) with
    | .jnum _ => true
    | _ => false
  | _ => false

/-- Well-formed series: a dict with a "data" array of well-formed
points. -/
def seriesWF : JVal → Bool
  | .jobj fs =>
    match objGet fs "data" with
    | some (.jarr ps) => ps.all pointWF
    | _ => false
  | _ => false

/-- Well-formed timeline structure: the payload's "timeline" field is a
list of well-formed series. -/
def timelineWF (payload : List (String × JVal)) : Bool :=
  match objGet payload "timeline" with
  | some (.jarr tl) => tl.all seriesWF
  | _ => false

/-- Modelled from the spec: the numeric "value" of one point of a
time-series entry (0 when the field is absent). -/
def specPointVal : JVal → Int
  | .jobj gs =>
    match (objGet gs "value").getD (.jnum 0) with
    | .jnum n => n
    | _ => 0
  | _ => 0

/-- Modelled from the spec: the sum of the numeric "value" fields of one
nested time-series entry. -/
def specSeriesVal : JVal → Int
  | .jobj fs =>
    match objGet fs "data" with
    | some (.jarr ps) => (ps.map specPointVal).foldl (fun a b => a + b) 0
    | _ => 0
  | _ => 0

/-- Modelled from the spec: "sum all numeric value fields across every
nested time-series entry in the response's timeline structure".  This is
the specification-side total, to be compared with
extract_timeline_total. -/
def specTimelineValueSum (payload : List (String × JVal)) : Int :=
  match objGet payload "timeline" with
  | some (.jarr tl) => (tl.map specSeriesVal).foldl (fun a b => a + b) 0
  | _ => 0

theorem pointValue_of_wf (p : JVal) (h : pointWF p = true) :
    pointValue p = specPointVal p := by
  cases p with
  | jobj fs =>
      simp only [pointWF] at h
      cases hv : (objGet fs "value").getD (.jnum 0) with
      | jnum n => simp [pointValue, specPointVal, hv, pyToInt]
      | jnull => rw [hv] at h; simp at h
      | jbool b => rw [hv] at h; simp at h
      | jstr s => rw [hv] at h; simp at h
      | jarr xs => rw [hv] at h; simp at h
      | jobj gs => rw [hv] at h; simp at h
  | jnull => simp [pointWF] at h
  | jbool b => simp [pointWF] at h
  | jnum n => simp [pointWF] at h
  | jstr s => simp [pointWF] at h
  | jarr xs => simp [pointWF] at h

theorem foldl_add_shift (l : List Int) (a : Int) :
    l.foldl (fun x y => x + y) a = a + l.foldl (fun x y => x + y) 0 := by
  induction l generalizing a with
  | nil => simp
  | cons b t iht =>
      simp only [List.foldl_cons]
      rw [iht (a + b), iht (0 + b)]
      ring

theorem sumSeries_of_wf :
    ∀ tl : List JVal, tl.all seriesWF = true →
      sumSeries tl = .ok ((tl.map specSeriesVal).foldl (fun a b => a + b) 0) := by
  intro tl
  induction tl with
  | nil => intro _; rfl
  | cons s rest ih =>
      intro h
      rw [List.all_cons, Bool.and_eq_true] at h
      obtain ⟨hs, hrest⟩ := h
      cases s with
      | jobj fs =>
          simp only [seriesWF] at hs
          cases hd : objGet fs "data" with
          | none => rw [hd] at hs; simp at hs
          | some dv =>
              cases dv with
              | jarr ps =>
                  rw [hd] at hs
                  simp only at hs
                  have hpoints : seriesPoints (.jobj fs) = .ok ps := by
                    simp [seriesPoints, hd]
                  have hmap : ps.map pointValue = ps.map specPointVal := by
                    apply List.map_congr_left
                    intro p hp
                    exact pointValue_of_wf p (by
                      rw [List.all_eq_true] at hs
                      exact hs p hp)
                  have hsv : specSeriesVal (.jobj fs)
                      = (ps.map specPointVal).foldl (fun a b => a + b) 0 := by
                    simp [specSeriesVal, hd]
                  simp only [sumSeries, hpoints, ih hrest, List.map_cons, List.foldl_cons]
                  rw [hmap, hsv]
                  have hsh := foldl_add_shift (rest.map specSeriesVal)
                    (0 + (ps.map specPointVal).foldl (fun a b => a + b) 0)
                  rw [hsh]
                  simp
              | jnull => rw [hd] at hs; simp at hs
              | jbool b => rw [hd] at hs; simp at hs
              | jnum n => rw [hd] at hs; simp at hs
              | jstr t => rw [hd] at hs; simp at hs
              | jobj gs => rw [hd] at hs; simp at hs
      | jnull => simp [seriesWF] at hs
      | jbool b => simp [seriesWF] at hs
      | jnum n => simp [seriesWF] at hs
      | jstr t => simp [seriesWF] at hs
      | jarr xs => simp [seriesWF] at hs

/-- C7: for every payload carrying a well-formed timeline structure (a
list of series objects, each with a "data" array of points whose "value"
fields are numeric), extract_timeline_total returns exactly the sum of
all numeric "value" fields across every nested time-series entry. -/
theorem c7_extract_equals_nested_sum (payload : List (String × JVal))
    (h : timelineWF payload = true) :
    extract_timeline_total payload = .ok (specTimelineValueSum payload) := by
  cases htl : objGet payload "timeline" with
  | none => simp [timelineWF, htl] at h
  | some tv =>
      cases tv with
      | jarr tl =>
          rw [timelineWF, htl] at h
          simp only at h
          cases tl with
          | nil => simp [extract_timeline_total, htl, jFalsy, specTimelineValueSum]
          | cons first rest =>
              have hall := h
              rw [List.all_cons, Bool.and_eq_true] at hall
              obtain ⟨hfirst, _⟩ := hall
              have hA : branchACond first = true := by
                cases first with
                | jobj fs =>
                    simp only [seriesWF] at hfirst
                    cases hd : objGet fs "data" with
                    | none => rw [hd] at hfirst; simp at hfirst
                    | some dv => simp [branchACond, hd]
                | jnull => simp [seriesWF] at hfirst
                | jbool b => simp [seriesWF] at hfirst
                | jnum n => simp [seriesWF] at hfirst
                | jstr t => simp [seriesWF] at hfirst
                | jarr xs => simp [seriesWF] at hfirst
              have hfal : jFalsy (.jarr (first :: rest)) = false := by
                simp [jFalsy]
              simp only [extract_timeline_total, htl, hfal, Bool.false_eq_true,
                if_false, hA, if_true]
              rw [sumSeries_of_wf _ h]
              simp [specTimelineValueSum, htl]
      | jnull => simp [timelineWF, htl] at h
      | jbool b => simp [timelineWF, htl] at h
      | jnum n => simp [timelineWF, htl] at h
      | jstr s => simp [timelineWF, htl] at h
      | jobj fs => simp [timelineWF, htl] at h

/-- The example payload of the spec:
timeline = [ { data = [ {value 3}, {value 5} ] }, { data = [ {value 2} ] } ]. -/
def examplePayload : List (String × JVal) :=
  [("timeline", .jarr
    [ .jobj [("data", .jarr [ .jobj [("value", .jnum 3)], .jobj [("value", .jnum 5)] ])],
      .jobj [("data", .jarr [ .jobj [("value", .jnum 2)] ])] ])]

/-- Witness for c7_extract_equals_nested_sum: the spec's example payload
is well formed and extracts to 10. -/
theorem c7_extract_equals_nested_sum_witness :
    timelineWF examplePayload = true ∧
    extract_timeline_total examplePayload = .ok (specTimelineValueSum examplePayload) ∧
    specTimelineValueSum examplePayload = 10 :=
  ⟨by decide, c7_extract_equals_nested_sum examplePayload (by decide), by decide⟩

/-
HTTP transport abstraction.  A transport maps the global request number
and the query string of that request to a classified response outcome,
exactly the classification request_timeline_total performs on a real
requests.Response (source gdeltingest.py lines 203-240).  Rate limiting
and backoff sleeps only consume time and are modelled separately.
-/

inductive Resp where
  | exn : Resp
  | status429 : Resp
  | statusBad : Resp
  | nonJson : String → Resp
  | jsonBad : Resp
  | jsonOk : List (String × JVal) → Resp

/-- Source gdeltingest.py lines 200-242: the retry loop of
request_timeline_total, with fuel counting the remaining attempts
(initially MAX_RETRIES) and n the global request number.  "attempt <
MAX_RETRIES" in the source is "fuel > 0" here; a 429 always continues and
the exhausted loop falls through to "return 0, None".  Each loop
iteration issues exactly one request, so the returned number counts
issued requests. -/
def rttAux (tr : Nat → String → Resp) (query : String) :
    Nat → Nat → PyResult ((Option Int × Option String) × Nat)
  | 0, n => .ok ((some 0, none), n)
  | fuel + 1, n =>
    match tr n query with
    | .exn =>
      if fuel > 0 then rttAux tr query fuel (n + 1)
      else .ok ((some 0, none), n + 1)
    | .status429 => rttAux tr query fuel (n + 1)
    | .statusBad => .ok ((some 0, none), n + 1)
    | .nonJson body =>
      if is_semantic_error body then .ok ((none, some body), n + 1)
      else if fuel > 0 then rttAux tr query fuel (n + 1)
      else .ok ((some 0, none), n + 1)
    | .jsonBad =>
      if fuel > 0 then rttAux tr query fuel (n + 1)
      else .ok ((some 0, none), n + 1)
    | .jsonOk payload =>
      match extract_timeline_total payload with
      | .ok t => .ok ((some t, none), n + 1)
      | .raised => .raised

def request_timeline_total (tr : Nat → String → Resp) (query : String)
    (n : Nat) : PyResult ((Option Int × Option String) × Nat) :=
  rttAux tr query MAX_RETRIES n

/-- Source gdeltingest.py lines 256-270: try the candidate expressions in
order; a semantic error moves on to the next candidate; the first
non-semantic result is returned as int(count or 0); exhausting all
candidates returns 0. -/
def fctcGo (tr : Nat → String → Resp) (topic_query : String) :
    List String → Option String → Nat → PyResult (Int × Nat)
  | [], _, n => .ok (0, n)
  | expr :: rest, _, n =>
    match request_timeline_total tr (build_query expr topic_query) n with
    | .raised => .raised
    | .ok ((_, some sem), n2) => fctcGo tr topic_query rest (some sem) n2
    | .ok ((count, none), n2) => .ok (count.getD 0, n2)

/-- Source gdeltingest.py lines 245-270: fetch_country_topic_count. -/
def fetch_country_topic_count (tr : Nat → String → Resp)
    (country topic_query : String) (n : Nat) : PyResult (Int × Nat) :=
  fctcGo tr topic_query (candidate_exprs country) none n

/-- One unfolding of the retry loop at a positive attempt budget. -/
theorem rttAux_succ (tr : Nat → String → Resp) (query : String) (fuel n : Nat) :
    rttAux tr query (fuel + 1) n
      = match tr n query with
        | .exn =>
          if fuel > 0 then rttAux tr query fuel (n + 1)
          else .ok ((some 0, none), n + 1)
        | .status429 => rttAux tr query fuel (n + 1)
        | .statusBad => .ok ((some 0, none), n + 1)
        | .nonJson body =>
          if is_semantic_error body then .ok ((none, some body), n + 1)
          else if fuel > 0 then rttAux tr query fuel (n + 1)
          else .ok ((some 0, none), n + 1)
        | .jsonBad =>
          if fuel > 0 then rttAux tr query fuel (n + 1)
          else .ok ((some 0, none), n + 1)
        | .jsonOk payload =>
          match extract_timeline_total payload with
          | .ok t => .ok ((some t, none), n + 1)
          | .raised => .raised := rfl

/-- One retry-loop iteration on a transport exception. -/
theorem rttAux_exn (tr : Nat → String → Resp) (query : String) (fuel n : Nat)
    (hb : tr n query = .exn) :
    rttAux tr query (fuel + 1) n
      = if fuel > 0 then rttAux tr query fuel (n + 1)
        else .ok ((some 0, none), n + 1) := by
  rw [rttAux_succ, hb]

/-- One retry-loop iteration on an HTTP 429. -/
theorem rttAux_429 (tr : Nat → String → Resp) (query : String) (fuel n : Nat)
    (hb : tr n query = .status429) :
    rttAux tr query (fuel + 1) n = rttAux tr query fuel (n + 1) := by
  rw [rttAux_succ, hb]

/-- One retry-loop iteration on a 2xx non-JSON body. -/
theorem rttAux_nonJson (tr : Nat → String → Resp) (query : String) (fuel n : Nat)
    (body : String) (hb : tr n query = .nonJson body) :
    rttAux tr query (fuel + 1) n
      = if is_semantic_error body then .ok ((none, some body), n + 1)
        else if fuel > 0 then rttAux tr query fuel (n + 1)
        else .ok ((some 0, none), n + 1) := by
  rw [rttAux_succ, hb]

/-- One retry-loop iteration on an unparseable JSON body. -/
theorem rttAux_jsonBad (tr : Nat → String → Resp) (query : String) (fuel n : Nat)
    (hb : tr n query = .jsonBad) :
    rttAux tr query (fuel + 1) n
      = if fuel > 0 then rttAux tr query fuel (n + 1)
        else .ok ((some 0, none), n + 1) := by
  rw [rttAux_succ, hb]

/-- C3: when every response is a 2xx non-JSON body carrying a semantic
error fingerprint, each candidate expression causes exactly one request
(the first attempt returns the permanent error without retrying), and
after all candidates are exhausted the fetch returns count 0.  The
request counter advances by exactly the number of candidate
expressions. -/
theorem c3_semantic_error_short_circuit (tr : Nat → String → Resp)
    (country topic_query : String) (n0 : Nat)
    (h : ∀ n q, ∃ body, tr n q = .nonJson body ∧ is_semantic_error body = true) :
    fetch_country_topic_count tr country topic_query n0
      = .ok (0, n0 + (candidate_exprs country).length) := by
  have hreq : ∀ q n, request_timeline_total tr q n
      = .ok ((none, some (Classical.choose (h n q))), n + 1) := by
    intro q n
    obtain ⟨hb, hsem⟩ := Classical.choose_spec (h n q)
    show rttAux tr q MAX_RETRIES n = _
    rw [show MAX_RETRIES = 5 + 1 from rfl]
    rw [rttAux_nonJson tr q 5 n _ hb, hsem]
    simp
  have hgo : ∀ (exprs : List String) (last : Option String) (n : Nat),
      fctcGo tr topic_query exprs last n = .ok (0, n + exprs.length) := by
    intro exprs
    induction exprs with
    | nil => intro last n; simp [fctcGo]
    | cons e rest ih =>
        intro last n
        unfold fctcGo
        rw [hreq (build_query e topic_query) n]
        show fctcGo tr topic_query rest
          (some (Classical.choose (h n (build_query e topic_query)))) (n + 1) = _
        rw [ih (some (Classical.choose (h n (build_query e topic_query)))) (n + 1)]
        have harith : n + 1 + rest.length = n + (e :: rest).length := by
          simp [List.length_cons]
          omega
        rw [harith]
  show fctcGo tr topic_query (candidate_exprs country) none n0 = _
  exact hgo (candidate_exprs country) none n0

/-- Witness for c3_semantic_error_short_circuit: a transport that always
reports an invalid query makes the Iraq fetch issue its two candidate
requests and return 0. -/
theorem c3_semantic_error_short_circuit_witness :
    (∀ n q, ∃ body, (fun (_ : Nat) (_ : String) => Resp.nonJson "Your query is invalid.") n q
        = .nonJson body ∧ is_semantic_error body = true) ∧
    fetch_country_topic_count (fun _ _ => Resp.nonJson "Your query is invalid.")
      "Iraq" "(protest OR riot)" 0
      = .ok (0, 0 + (candidate_exprs "Iraq").length) :=
  ⟨fun n q => ⟨"Your query is invalid.", rfl, by decide⟩,
   c3_semantic_error_short_circuit (fun _ _ => Resp.nonJson "Your query is invalid.")
     "Iraq" "(protest OR riot)" 0
     (fun n q => ⟨"Your query is invalid.", rfl, by decide⟩)⟩

/-- Transient outcome classification of C4: transport exception, HTTP
429, a 2xx non-JSON body with no semantic-error fingerprint, or a 2xx
JSON content-type whose body fails to parse. -/
def TransientResp (r : Resp) : Prop :=
  r = .exn ∨ r = .status429 ∨
  (∃ body, r = .nonJson body ∧ is_semantic_error body = false) ∨
  r = .jsonBad

theorem rttAux_all_transient (tr : Nat → String → Resp) (query : String)
    (h : ∀ n q, TransientResp (tr n q)) :
    ∀ (fuel n : Nat), rttAux tr query fuel n = .ok ((some 0, none), n + fuel) := by
  intro fuel
  induction fuel with
  | zero => intro n; rfl
  | succ f ih =>
      intro n
      have harith : n + 1 + f = n + (f + 1) := by omega
      have hstep : (if f > 0 then rttAux tr query f (n + 1)
          else .ok ((some 0, none), n + 1))
          = .ok ((some 0, none), n + (f + 1)) := by
        cases f with
        | zero => simp
        | succ g =>
            rw [if_pos (Nat.succ_pos g), ih (n + 1)]
            rw [show n + 1 + (g + 1) = n + (g + 1 + 1) from by omega]
      rcases h n query with hx | hx | ⟨body, hb, hsem⟩ | hx
      · rw [rttAux_exn tr query f n hx, hstep]
      · rw [rttAux_429 tr query f n hx]
        cases f with
        | zero => rw [show rttAux tr query 0 (n + 1) = .ok ((some 0, none), n + 1) from rfl]
        | succ g =>
            rw [ih (n + 1)]
            rw [show n + 1 + (g + 1) = n + (g + 1 + 1) from by omega]
      · rw [rttAux_nonJson tr query f n body hb, hsem]
        simp only [Bool.false_eq_true, if_false]
        exact hstep
      · rw [rttAux_jsonBad tr query f n hx, hstep]

/-- C4: if every attempt fails with a transient outcome, the fetch
exhausts its MAX_RETRIES attempts and returns a zero count and no
semantic error; it never raises to the caller (the result is a normal
PyResult.ok, never PyResult.raised). -/
theorem c4_transient_exhaustion_returns_zero (tr : Nat → String → Resp)
    (query : String) (n0 : Nat) (h : ∀ n q, TransientResp (tr n q)) :
    request_timeline_total tr query n0 = .ok ((some 0, none), n0 + MAX_RETRIES) :=
  rttAux_all_transient tr query h MAX_RETRIES n0

/-- Witness for c4_transient_exhaustion_returns_zero: a transport that
always times out yields ok (0, no error) after the six attempts. -/
theorem c4_transient_exhaustion_returns_zero_witness :
    (∀ n q, TransientResp ((fun (_ : Nat) (_ : String) => Resp.exn) n q)) ∧
    request_timeline_total (fun _ _ => Resp.exn) "q" 0
      = .ok ((some 0, none), 0 + MAX_RETRIES) :=
  ⟨fun _ _ => Or.inl rfl,
   c4_transient_exhaustion_returns_zero (fun _ _ => Resp.exn) "q" 0
     (fun _ _ => Or.inl rfl)⟩

/-
Rate limiter (source gdeltingest.py lines 113-123).  Time is modelled by
rational numbers; statements other than sleeps are instantaneous, the
clock is monotone, and time.sleep(w) lets at least w elapse.  A call to
rate_limit_sleep reads now1 = time.time(), sleeps max(wait, 0) where
wait = MIN_SECONDS_BETWEEN_REQUESTS - (now1 - last), and stores
last~new~ = time.time() = now2; the network request is issued immediately
after the call returns, at time last~new~.
-/

/-- Source gdeltingest.py line 37: MIN_SECONDS_BETWEEN_REQUESTS = 5.2
seconds, as the exact rational 26/5. -/
def MIN_SECONDS_BETWEEN_REQUESTS : ℚ := 26 / 5

/-- Source gdeltingest.py line 120: wait = MIN_SECONDS_BETWEEN_REQUESTS -
(now - _last_request_time). -/
def rate_limit_wait (last now : ℚ) : ℚ :=
  MIN_SECONDS_BETWEEN_REQUESTS - (now - last)

/-- One execution of rate_limit_sleep, relating the stored last-request
time before the call to the one after it.  now1 is the first time.time()
reading (at or after the previous store, by clock monotonicity), and the
second reading now2 happens after sleeping max(wait, 0). -/
def RateLimitStep (last next : ℚ) : Prop :=
  ∃ now1 now2 : ℚ,
    last ≤ now1 ∧
    now1 + max (rate_limit_wait last now1) 0 ≤ now2 ∧
    next = now2

/-- C6: along any sequence of rate_limit_sleep calls, consecutive
recorded request-start times are at least MIN_SECONDS_BETWEEN_REQUESTS
apart; since each network request is issued as soon as its
rate_limit_sleep returns, consecutive request starts are so spaced. -/
theorem c6_rate_limit_spacing (t : Nat → ℚ)
    (h : ∀ i, RateLimitStep (t i) (t (i + 1))) :
    ∀ i, MIN_SECONDS_BETWEEN_REQUESTS ≤ t (i + 1) - t i := by
  intro i
  obtain ⟨now1, now2, h1, h2, h3⟩ := h i
  unfold rate_limit_wait at h2
  rcases le_or_lt (MIN_SECONDS_BETWEEN_REQUESTS - (now1 - t i)) 0 with hw | hw
  · rw [max_eq_right hw] at h2
    linarith
  · rw [max_eq_left (le_of_lt hw)] at h2
    linarith

/-- Witness for c6_rate_limit_spacing: the trace that fires exactly every
MIN_SECONDS_BETWEEN_REQUESTS seconds satisfies the step relation, and the
first two recorded starts are at least that far apart. -/
theorem c6_rate_limit_spacing_witness :
    (∀ i : Nat, RateLimitStep ((i : ℚ) * MIN_SECONDS_BETWEEN_REQUESTS)
      (((i + 1 : Nat) : ℚ) * MIN_SECONDS_BETWEEN_REQUESTS)) ∧
    MIN_SECONDS_BETWEEN_REQUESTS ≤
      ((1 : Nat) : ℚ) * MIN_SECONDS_BETWEEN_REQUESTS -
        ((0 : Nat) : ℚ) * MIN_SECONDS_BETWEEN_REQUESTS := by
  have hstep : ∀ i : Nat, RateLimitStep ((i : ℚ) * MIN_SECONDS_BETWEEN_REQUESTS)
      (((i + 1 : Nat) : ℚ) * MIN_SECONDS_BETWEEN_REQUESTS) := by
    intro i
    refine ⟨(i : ℚ) * MIN_SECONDS_BETWEEN_REQUESTS,
      ((i + 1 : Nat) : ℚ) * MIN_SECONDS_BETWEEN_REQUESTS, le_refl _, ?_, rfl⟩
    have hw : rate_limit_wait ((i : ℚ) * MIN_SECONDS_BETWEEN_REQUESTS)
        ((i : ℚ) * MIN_SECONDS_BETWEEN_REQUESTS) = MIN_SECONDS_BETWEEN_REQUESTS := by
      unfold rate_limit_wait
      ring
    rw [hw]
    have : max MIN_SECONDS_BETWEEN_REQUESTS (0 : ℚ) = MIN_SECONDS_BETWEEN_REQUESTS := by
      apply max_eq_left
      norm_num [MIN_SECONDS_BETWEEN_REQUESTS]
    rw [this]
    push_cast
    ring_nf
    norm_num [MIN_SECONDS_BETWEEN_REQUESTS]
  exact ⟨hstep, by
    exact c6_rate_limit_spacing
      (fun i => (i : ℚ) * MIN_SECONDS_BETWEEN_REQUESTS) hstep 0⟩

/-
Panel merge (source feature_merge.py).  Rows are typed: weeks are the
values produced by pd.to_datetime (an abstract totally ordered stamp,
modelled as Int), country a string, and the gdelt_* metric columns a list
of integers (pd.to_numeric with fillna(0) is the identity on the integer
counts the ingest writes).  COUNTRY_RENAMES is empty in the source, so
_normalize_country reduces to pandas .str.strip.
-/

structure ARow where
  country : String
  week : Int
  rest : List Int
deriving DecidableEq

structure GRow where
  country : String
  week : Int
  metrics : List Int
deriving DecidableEq

/-- Source feature_merge.py lines 19-25: the rename table, empty in the
source. -/
def COUNTRY_RENAMES : List (String × String) := []

/-- Source feature_merge.py lines 28-39: _normalize_country strips the
ends and, only when COUNTRY_RENAMES is nonempty, applies the rename
table. -/
def _normalize_country (s : String) : String :=
  let t := pyStrip s
  if COUNTRY_RENAMES.isEmpty then t
  else ((COUNTRY_RENAMES.find? (fun p => p.1 = t)).map (fun p => p.2)).getD t

def normalizeARow (r : ARow) : ARow :=
  { r with country := _normalize_country r.country }

def normalizeGRow (r : GRow) : GRow :=
  { r with country := _normalize_country r.country }

/-- Key match used by the (country, week) join and dedupe. -/
def gkeyMatches (c : String) (w : Int) (r : GRow) : Bool :=
  r.country = c && r.week = w

/-- Source feature_merge.py line 88: drop_duplicates(subset=["country",
"week"], keep="last") keeps, in file order, exactly the rows with no
later occurrence of the same key. -/
def dedupeKeepLast : List GRow → List GRow
  | [] => []
  | r :: rs =>
    if rs.any (fun x => x.country = r.country && x.week = r.week) then
      dedupeKeepLast rs
    else r :: dedupeKeepLast rs

/-- Source feature_merge.py lines 42-98: _dedupe_gdelt normalizes country
spellings, parses weeks, coerces the metric columns (identity on the
integer panel) and deduplicates keeping the last row per (country, week);
its sanity re-check cannot fire, by dedupeKeepLast_key_nodup below. -/
def _dedupe_gdelt (l : List GRow) : List GRow :=
  dedupeKeepLast (l.map normalizeGRow)

structure MRow where
  a : ARow
  g : Option (List Int)
deriving DecidableEq

/-- Source feature_merge.py lines 101-132: normalize the event panel,
dedupe the news panel, keep only event rows whose week occurs in the news
panel, then left-join on (country, week); a missing news side leaves the
news columns absent. -/
def merge_main (acled : List ARow) (gdeltRaw : List GRow) : List MRow :=
  let acledN := acled.map normalizeARow
  let gd := _dedupe_gdelt gdeltRaw
  let weeks := gd.map (fun g => g.week)
  let acled8 := acledN.filter (fun r => weeks.contains r.week)
  acled8.map (fun a =>
    ⟨a, (gd.find? (gkeyMatches a.country a.week)).map (fun g => g.metrics)⟩)

theorem dedupeKeepLast_subset :
    ∀ (l : List GRow) (x : GRow), x ∈ dedupeKeepLast l → x ∈ l := by
  intro l
  induction l with
  | nil => intro x hx; exact absurd hx (List.not_mem_nil x)
  | cons r rs ih =>
      intro x hx
      by_cases hdup : rs.any (fun y => y.country = r.country && y.week = r.week) = true
      · rw [dedupeKeepLast, if_pos hdup] at hx
        exact List.mem_cons_of_mem r (ih x hx)
      · rw [dedupeKeepLast, if_neg hdup] at hx
        rcases List.mem_cons.mp hx with h1 | h2
        · exact h1 ▸ List.mem_cons_self x rs
        · exact List.mem_cons_of_mem r (ih x h2)

theorem dedupeKeepLast_key_nodup :
    ∀ l : List GRow, ((dedupeKeepLast l).map (fun r => (r.country, r.week))).Nodup := by
  intro l
  induction l with
  | nil => exact List.nodup_nil
  | cons r rs ih =>
      by_cases hdup : rs.any (fun y => y.country = r.country && y.week = r.week) = true
      · rw [dedupeKeepLast, if_pos hdup]
        exact ih
      · rw [dedupeKeepLast, if_neg hdup]
        rw [List.map_cons, List.nodup_cons]
        refine ⟨?_, ih⟩
        intro hmem
        rcases List.mem_map.mp hmem with ⟨y, hy, hkey⟩
        have hy2 := dedupeKeepLast_subset rs y hy
        rw [List.any_eq_true] at hdup
        push_neg at hdup
        apply hdup y hy2
        have hc : y.country = r.country := congrArg Prod.fst hkey
        have hw : y.week = r.week := congrArg Prod.snd hkey
        rw [hc, hw]
        simp

theorem dedupeKeepLast_find? :
    ∀ (l : List GRow) (c : String) (w : Int),
      (dedupeKeepLast l).find? (gkeyMatches c w)
        = (l.filter (gkeyMatches c w)).getLast? := by
  intro l
  induction l with
  | nil => intro c w; rfl
  | cons r rs ih =>
      intro c w
      by_cases hdup : rs.any (fun y => y.country = r.country && y.week = r.week) = true
      · rw [dedupeKeepLast, if_pos hdup]
        by_cases hm : gkeyMatches c w r = true
        · rw [List.filter_cons_of_pos hm]
          have hm2 := hm
          rw [gkeyMatches, Bool.and_eq_true, decide_eq_true_eq, decide_eq_true_eq] at hm2
          rw [List.any_eq_true] at hdup
          obtain ⟨y, hy, hyk⟩ := hdup
          rw [Bool.and_eq_true, decide_eq_true_eq, decide_eq_true_eq] at hyk
          have hymatch : gkeyMatches c w y = true := by
            rw [gkeyMatches, Bool.and_eq_true, decide_eq_true_eq, decide_eq_true_eq]
            exact ⟨hyk.1.trans hm2.1, hyk.2.trans hm2.2⟩
          have hne : rs.filter (gkeyMatches c w) ≠ [] := by
            intro hnil
            have hmem := List.mem_filter.mpr ⟨hy, hymatch⟩
            rw [hnil] at hmem
            exact absurd hmem (List.not_mem_nil y)
          obtain ⟨y0, ys, hxs⟩ := List.exists_cons_of_ne_nil hne
          rw [ih c w, hxs, List.getLast?_cons_cons]
        · rw [List.filter_cons_of_neg (by simpa using hm)]
          exact ih c w
      · rw [dedupeKeepLast, if_neg hdup]
        by_cases hm : gkeyMatches c w r = true
        · have hm2 := hm
          rw [gkeyMatches, Bool.and_eq_true, decide_eq_true_eq, decide_eq_true_eq] at hm2
          have hnofilter : rs.filter (gkeyMatches c w) = [] := by
            rw [List.filter_eq_nil_iff]
            intro y hy hmatch
            rw [gkeyMatches, Bool.and_eq_true, decide_eq_true_eq, decide_eq_true_eq] at hmatch
            rw [List.any_eq_true] at hdup
            push_neg at hdup
            apply hdup y hy
            rw [hmatch.1.trans hm2.1.symm, hmatch.2.trans hm2.2.symm]
            simp
          rw [List.filter_cons_of_pos hm, hnofilter]
          rw [List.find?_cons_of_pos _ hm]
          rfl
        · rw [List.filter_cons_of_neg (by simpa using hm)]
          rw [List.find?_cons_of_neg _ (by simpa using hm)]
          exact ih c w

/-- C5: deduplication keeps, for every (country, week) key, exactly the
last occurring row in file order (the lookup in the deduplicated panel is
the last matching row of the normalized input), no duplicate key remains
after deduplication, and the merged output for that key carries that last
row's metric values. -/
theorem c5_dedupe_keeps_last (l : List GRow) (c : String) (w : Int) :
    ((_dedupe_gdelt l).map (fun r => (r.country, r.week))).Nodup ∧
    (_dedupe_gdelt l).find? (gkeyMatches c w)
      = ((l.map normalizeGRow).filter (gkeyMatches c w)).getLast? ∧
    (∀ (acled : List ARow) (e : MRow), e ∈ merge_main acled l →
      e.a.country = c → e.a.week = w →
      e.g = (((l.map normalizeGRow).filter (gkeyMatches c w)).getLast?).map
        (fun g => g.metrics)) := by
  refine ⟨dedupeKeepLast_key_nodup (l.map normalizeGRow),
    dedupeKeepLast_find? (l.map normalizeGRow) c w, ?_⟩
  intro acled e he hc hw
  rcases List.mem_map.mp he with ⟨a, _, rfl⟩
  have hc2 : a.country = c := hc
  have hw2 : a.week = w := hw
  show ((_dedupe_gdelt l).find? (gkeyMatches a.country a.week)).map
    (fun g => g.metrics) = _
  rw [hc2, hw2]
  unfold _dedupe_gdelt
  rw [dedupeKeepLast_find? (l.map normalizeGRow) c w]

/-- Example panels: a news panel with two rows for (France, week 0) whose
counts differ, and an event panel with one row for that key. -/
def exampleGdelt : List GRow := [⟨"France", 0, [1]⟩, ⟨"France", 0, [5]⟩]

def exampleAcled : List ARow := [⟨"France", 0, []⟩]

/-- Witness for c5_dedupe_keeps_last: the merge output for (France, 0)
uses the later row's count 5, not the sum 6. -/
theorem c5_dedupe_keeps_last_witness :
    ((⟨⟨"France", 0, []⟩, some [5]⟩ : MRow) ∈ merge_main exampleAcled exampleGdelt) ∧
    ((⟨⟨"France", 0, []⟩, some [5]⟩ : MRow).g
      = (((exampleGdelt.map normalizeGRow).filter (gkeyMatches "France" 0)).getLast?).map
          (fun g => g.metrics)) ∧
    ((((exampleGdelt.map normalizeGRow).filter (gkeyMatches "France" 0)).getLast?).map
        (fun g => g.metrics) = some [5] ∧ (5 : Int) ≠ 1 + 5) :=
  ⟨by decide,
   (c5_dedupe_keeps_last exampleGdelt "France" 0).2.2 exampleAcled
     ⟨⟨"France", 0, []⟩, some [5]⟩ (by decide) (by decide) (by decide),
   by decide, by decide⟩

/-- C2 counterexample: an event-panel row whose week does not occur in
the news panel is dropped before the join, so it does not appear in the
unified output; the claim that every input event row appears fails. -/
def c2EventPanel : List ARow := [⟨"France", 5, [7]⟩]

def c2NewsPanel : List GRow := [⟨"France", 3, [1]⟩]

theorem c2_left_join_counterexample :
    merge_main c2EventPanel c2NewsPanel = [] ∧ c2EventPanel ≠ [] :=
  ⟨by decide, by decide⟩

/-- C2 (amended): the merge left-joins the event panel onto the
deduplicated news panel on (country, week), but only after restricting
the event panel to the weeks that occur in the news panel: the output's
event side is exactly the normalized event panel filtered to those weeks,
in order; within that scope every event row is retained, its news-side
columns are missing exactly when no news row matches its (country, week)
key, and otherwise carry the matching news row's metrics. -/
theorem c2_left_join_retains_weeks (acled : List ARow) (gdeltRaw : List GRow) :
    ((merge_main acled gdeltRaw).map (fun e => e.a)
      = (acled.map normalizeARow).filter
          (fun r => ((_dedupe_gdelt gdeltRaw).map (fun g => g.week)).contains r.week)) ∧
    (∀ e ∈ merge_main acled gdeltRaw,
      (e.g = none ↔
        (_dedupe_gdelt gdeltRaw).find? (gkeyMatches e.a.country e.a.week) = none)) ∧
    (∀ e ∈ merge_main acled gdeltRaw, ∀ g : GRow,
      (_dedupe_gdelt gdeltRaw).find? (gkeyMatches e.a.country e.a.week) = some g →
      e.g = some g.metrics) := by
  refine ⟨?_, ?_, ?_⟩
  · simp only [merge_main]
    rw [List.map_map]
    exact List.map_id _
  · intro e he
    rcases List.mem_map.mp he with ⟨a, _, rfl⟩
    show ((_dedupe_gdelt gdeltRaw).find? (gkeyMatches a.country a.week)).map
      (fun g => g.metrics) = none ↔ _
    cases hf : (_dedupe_gdelt gdeltRaw).find? (gkeyMatches a.country a.week) with
    | none => simp
    | some g => simp
  · intro e he g hg
    rcases List.mem_map.mp he with ⟨a, _, rfl⟩
    have hg2 : (_dedupe_gdelt gdeltRaw).find? (gkeyMatches a.country a.week) = some g := hg
    show ((_dedupe_gdelt gdeltRaw).find? (gkeyMatches a.country a.week)).map
      (fun g => g.metrics) = some g.metrics
    rw [hg2]
    rfl

/-- Witness for c2_left_join_retains_weeks at the example panels. -/
theorem c2_left_join_retains_weeks_witness :
    ((merge_main exampleAcled exampleGdelt).map (fun e => e.a)
      = (exampleAcled.map normalizeARow).filter
          (fun r => ((_dedupe_gdelt exampleGdelt).map (fun g => g.week)).contains r.week)) ∧
    ((⟨⟨"France", 0, []⟩, some [5]⟩ : MRow) ∈ merge_main exampleAcled exampleGdelt) ∧
    ((⟨⟨"France", 0, []⟩, some [5]⟩ : MRow).g = some (GRow.mk "France" 0 [5]).metrics) :=
  ⟨(c2_left_join_retains_weeks exampleAcled exampleGdelt).1,
   by decide,
   (c2_left_join_retains_weeks exampleAcled exampleGdelt).2.2
     ⟨⟨"France", 0, []⟩, some [5]⟩ (by decide) ⟨"France", 0, [5]⟩ (by decide)⟩

/-
Resumable ingest driver (source gdeltingest.py lines 295-417), as a
state machine over its durable files.  The nested week/country loops are
linearized into one list of work units with a single cursor, exactly the
progression the two-level (week_index, country_index) cursor encodes.
The durable state is the progress cursor, the done set (DONE_JSON keys
with value true), the per-topic cache (CACHE_JSON) and the appended
output rows (OUT_CSV); each driver_step performs the computation up to
the next durable write.  A crash (the process killed at any instant)
discards only the volatile phase; a restart resumes from the durable
cursor, done set and cache.  The CHUNK_SIZE early exit is a clean stop
and is subsumed by stopping the event list.
-/

/-- Source gdeltingest.py lines 44-48: the topic names, in iteration
order; the query text is carried by the oracle. -/
def TOPIC_NAMES : List String := ["violence", "protest", "rebellion"]

structure OutRow where
  country : String
  week : String
  counts : List Int
deriving DecidableEq

/-- Volatile position inside one work unit: idle (before the done-set
check, line 374), working acc (done-check passed, the counts in acc
resolved), appended (row appended, line 399, done not yet saved), marked
(done saved, line 402, progress not yet saved). -/
inductive Phase where
  | idle : Phase
  | working : List Int → Phase
  | appended : Phase
  | marked : Phase
deriving DecidableEq

structure DriverState where
  cursor : Nat
  done : List String
  cache : List (String × Int)
  rows : List OutRow
  nfetch : Nat
  ph : Phase
deriving DecidableEq

def initState : DriverState := ⟨0, [], [], [], 0, .idle⟩

/-- Lookup in the persisted cache dictionary. -/
def lookupCache (c : List (String × Int)) (k : String) : Option Int :=
  (c.find? (fun p => p.1 = k)).map (fun p => p.2)

def unit_done_key (u : WorkUnit) : String :=
  done_key u.country u.week WINDOW_DAYS

def unit_cache_key (u : WorkUnit) (topic : String) : String :=
  cache_key u.country u.week WINDOW_DAYS topic

/-- One durable step of the driver main loop (source lines 370-407).
idle: the done-set check skips a completed unit (advancing the saved
cursor, line 407) or enters it.  working: the next topic is taken from
the cache or fetched and persisted (line 394); after the last topic the
row is appended (line 399).  appended: the done set is saved (line 402).
marked: the progress cursor is saved (line 407).  The oracle gives the
result of fetch_country_topic_count for a unit and topic index, and
nfetch counts those network fetches. -/
def driver_step (units : List WorkUnit) (oracle : WorkUnit → Nat → Int)
    (s : DriverState) : DriverState :=
  match units.get? s.cursor with
  | none => s
  | some u =>
    match s.ph with
    | .idle =>
      if unit_done_key u ∈ s.done then { s with cursor := s.cursor + 1 }
      else { s with ph := .working [] }
    | .working acc =>
      match TOPIC_NAMES.get? acc.length with
      | some tname =>
        let k := unit_cache_key u tname
        match lookupCache s.cache k with
        | some v => { s with ph := .working (acc ++ [v]) }
        | none =>
          let v := oracle u acc.length
          { s with cache := s.cache ++ [(k, v)],
                   nfetch := s.nfetch + 1,
                   ph := .working (acc ++ [v]) }
      | none => { s with rows := s.rows ++ [⟨u.country, u.week, acc⟩],
                         ph := .appended }
    | .appended => { s with done := s.done ++ [unit_done_key u], ph := .marked }
    | .marked => { s with cursor := s.cursor + 1, ph := .idle }

/-- The process is killed: durable state survives, the volatile phase is
lost, and the restarted run re-enters the in-flight unit at its done-set
check. -/
def driver_crash (s : DriverState) : DriverState :=
  { s with ph := .idle }

/-- Run the driver over an event list: true is a normal durable step,
false is a kill-and-restart. -/
def run_driver (units : List WorkUnit) (oracle : WorkUnit → Nat → Int)
    (s : DriverState) : List Bool → DriverState
  | [] => s
  | e :: evs =>
    run_driver units oracle
      (if e then driver_step units oracle s else driver_crash s) evs

/-- An event list is safe when no kill happens between the row append and
the done-set save (the window the spec requires to be one logical
step). -/
def safe_events (units : List WorkUnit) (oracle : WorkUnit → Nat → Int)
    (s : DriverState) : List Bool → Bool
  | [] => true
  | true :: evs => safe_events units oracle (driver_step units oracle s) evs
  | false :: evs =>
    decide (s.ph ≠ .appended) && safe_events units oracle (driver_crash s) evs

def rowKey (r : OutRow) : String × String := (r.country, r.week)

def pairDoneKey (p : String × String) : String := done_key p.1 p.2 WINDOW_DAYS

/-- Whether the phase is strictly inside a unit's processed branch
(between the done-set check and the done-set save). -/
def phaseMid : Phase → Bool
  | .working _ => true
  | .appended => true
  | _ => false

/-- Inductive invariant tying the output rows to the done set: row keys
are distinct; every row's done key is saved, except the row appended by
the current unit while its done save is pending; and a unit being
processed is not in the done set. -/
def DriverInv (units : List WorkUnit) (s : DriverState) : Prop :=
  (s.rows.map rowKey).Nodup ∧
  (∀ p ∈ s.rows.map rowKey,
    pairDoneKey p ∈ s.done ∨
      (s.ph = .appended ∧ ∃ u, units.get? s.cursor = some u ∧ p = (u.country, u.week))) ∧
  (∀ u, units.get? s.cursor = some u → phaseMid s.ph = true →
    unit_done_key u ∉ s.done)

theorem driver_inv_step (units : List WorkUnit) (oracle : WorkUnit → Nat → Int)
    (s : DriverState) (h : DriverInv units s) :
    DriverInv units (driver_step units oracle s) := by
  obtain ⟨hnd, hrows, hmid⟩ := h
  cases hu : units.get? s.cursor with
  | none =>
      have hstep : driver_step units oracle s = s := by
        simp only [driver_step, hu]
      rw [hstep]
      exact ⟨hnd, hrows, hmid⟩
  | some u =>
      cases hp : s.ph with
      | idle =>
          by_cases hd : unit_done_key u ∈ s.done
          · have hstep : driver_step units oracle s = { s with cursor := s.cursor + 1 } := by
              simp only [driver_step, hu, hp, hd, if_true]
            rw [hstep]
            refine ⟨hnd, ?_, ?_⟩
            · intro p hpmem
              rcases hrows p hpmem with hl | ⟨hph, _⟩
              · exact Or.inl hl
              · rw [hp] at hph; exact Phase.noConfusion hph
            · intro u' _ hm
              have hm2 : phaseMid s.ph = true := hm
              rw [hp] at hm2
              exact absurd hm2 (by simp [phaseMid])
          · have hstep : driver_step units oracle s = { s with ph := .working [] } := by
              simp only [driver_step, hu, hp, hd, if_false]
            rw [hstep]
            refine ⟨hnd, ?_, ?_⟩
            · intro p hpmem
              rcases hrows p hpmem with hl | ⟨hph, _⟩
              · exact Or.inl hl
              · rw [hp] at hph; exact Phase.noConfusion hph
            · intro u' hu' _
              have h2 : units.get? s.cursor = some u' := hu'
              rw [hu] at h2
              have huu : u' = u := (Option.some.inj h2).symm
              subst huu
              exact hd
      | working acc =>
          cases ht : TOPIC_NAMES.get? acc.length with
          | some tname =>
              cases hc : lookupCache s.cache (unit_cache_key u tname) with
              | some v =>
                  have hstep : driver_step units oracle s
                      = { s with ph := .working (acc ++ [v]) } := by
                    simp only [driver_step, hu, hp, ht, hc]
                  rw [hstep]
                  refine ⟨hnd, ?_, ?_⟩
                  · intro p hpmem
                    rcases hrows p hpmem with hl | ⟨hph, _⟩
                    · exact Or.inl hl
                    · rw [hp] at hph; exact Phase.noConfusion hph
                  · intro u' hu' _
                    have h2 : units.get? s.cursor = some u' := hu'
                    rw [hu] at h2
                    have huu : u' = u := (Option.some.inj h2).symm
                    subst huu
                    exact hmid u' hu (by rw [hp]; rfl)
              | none =>
                  have hstep : driver_step units oracle s = { s with cache := s.cache ++ [(unit_cache_key u tname, oracle u acc.length)], nfetch := s.nfetch + 1, ph := .working (acc ++ [oracle u acc.length]) } := by
                    simp only [driver_step, hu, hp, ht, hc]
                  rw [hstep]
                  refine ⟨hnd, ?_, ?_⟩
                  · intro p hpmem
                    rcases hrows p hpmem with hl | ⟨hph, _⟩
                    · exact Or.inl hl
                    · rw [hp] at hph; exact Phase.noConfusion hph
                  · intro u' hu' _
                    have h2 : units.get? s.cursor = some u' := hu'
                    rw [hu] at h2
                    have huu : u' = u := (Option.some.inj h2).symm
                    subst huu
                    exact hmid u' hu (by rw [hp]; rfl)
          | none =>
              have hstep : driver_step units oracle s
                  = { s with rows := s.rows ++ [⟨u.country, u.week, acc⟩], ph := .appended } := by
                simp only [driver_step, hu, hp, ht]
              rw [hstep]
              have hkey_not : (u.country, u.week) ∉ s.rows.map rowKey := by
                intro hmem
                rcases hrows _ hmem with hl | ⟨hph, _⟩
                · exact hmid u hu (by rw [hp]; rfl) hl
                · rw [hp] at hph; exact Phase.noConfusion hph
              refine ⟨?_, ?_, ?_⟩
              · show (List.map rowKey (s.rows ++ [⟨u.country, u.week, acc⟩])).Nodup
                rw [List.map_append, List.nodup_append]
                refine ⟨hnd, List.nodup_singleton _, ?_⟩
                intro a ha hb
                rw [List.map_cons, List.map_nil, List.mem_singleton] at hb
                subst hb
                exact hkey_not ha
              · intro p hpmem
                have hpm2 : p ∈ List.map rowKey (s.rows ++ [⟨u.country, u.week, acc⟩]) := hpmem
                rw [List.map_append] at hpm2
                rcases List.mem_append.mp hpm2 with hold | hnew
                · rcases hrows p hold with hl | ⟨hph, _⟩
                  · exact Or.inl hl
                  · rw [hp] at hph; exact Phase.noConfusion hph
                · right
                  rw [List.map_cons, List.map_nil, List.mem_singleton] at hnew
                  exact ⟨rfl, u, hu, hnew⟩
              · intro u' hu' _
                have h2 : units.get? s.cursor = some u' := hu'
                rw [hu] at h2
                have huu : u' = u := (Option.some.inj h2).symm
                subst huu
                exact hmid u' hu (by rw [hp]; rfl)
      | appended =>
          have hstep : driver_step units oracle s
              = { s with done := s.done ++ [unit_done_key u], ph := .marked } := by
            simp only [driver_step, hu, hp]
          rw [hstep]
          refine ⟨hnd, ?_, ?_⟩
          · intro p hpmem
            left
            show pairDoneKey p ∈ s.done ++ [unit_done_key u]
            rcases hrows p hpmem with hl | ⟨_, u', hu', hpk⟩
            · exact List.mem_append_left _ hl
            · have h2 : units.get? s.cursor = some u' := hu'
              rw [hu] at h2
              have huu : u' = u := (Option.some.inj h2).symm
              subst huu
              rw [hpk]
              exact List.mem_append_right _ (List.mem_singleton.mpr rfl)
          · intro u' _ hm
            have hm2 : phaseMid Phase.marked = true := hm
            exact absurd hm2 (by simp [phaseMid])
      | marked =>
          have hstep : driver_step units oracle s
              = { s with cursor := s.cursor + 1, ph := .idle } := by
            simp only [driver_step, hu, hp]
          rw [hstep]
          refine ⟨hnd, ?_, ?_⟩
          · intro p hpmem
            rcases hrows p hpmem with hl | ⟨hph, _⟩
            · exact Or.inl hl
            · rw [hp] at hph; exact Phase.noConfusion hph
          · intro u' _ hm
            have hm2 : phaseMid Phase.idle = true := hm
            exact absurd hm2 (by simp [phaseMid])

theorem driver_inv_crash (units : List WorkUnit) (s : DriverState)
    (h : DriverInv units s) (hph : s.ph ≠ .appended) :
    DriverInv units (driver_crash s) := by
  obtain ⟨hnd, hrows, hmid⟩ := h
  refine ⟨hnd, ?_, ?_⟩
  · intro p hpmem
    rcases hrows p hpmem with hl | ⟨hph2, _⟩
    · exact Or.inl hl
    · exact absurd hph2 hph
  · intro u' _ hm
    exact absurd hm (by simp [driver_crash, phaseMid])

theorem driver_inv_run (units : List WorkUnit) (oracle : WorkUnit → Nat → Int) :
    ∀ (evs : List Bool) (s : DriverState), DriverInv units s →
      safe_events units oracle s evs = true →
      DriverInv units (run_driver units oracle s evs) := by
  intro evs
  induction evs with
  | nil => intro s h _; exact h
  | cons e rest ih =>
      intro s h hsafe
      cases e with
      | true =>
          rw [safe_events] at hsafe
          exact ih (driver_step units oracle s) (driver_inv_step units oracle s h) hsafe
      | false =>
          rw [safe_events, Bool.and_eq_true, decide_eq_true_eq] at hsafe
          exact ih (driver_crash s) (driver_inv_crash units s h hsafe.1) hsafe.2

theorem driver_inv_init (units : List WorkUnit) : DriverInv units initState := by
  refine ⟨List.nodup_nil, ?_, ?_⟩
  · intro p hp
    exact absurd hp (List.not_mem_nil p)
  · intro u _ _
    exact List.not_mem_nil (unit_done_key u)

/-- C1 (amended): along every execution in which the process is never
killed in the window between the row append (line 399) and the done-set
save (line 402) — that is, when append and DoneSet marking behave as one
logical step — the output panel never contains more than one row per
(country, week) pair, whatever other kill-and-restart points occur. -/
theorem c1_no_duplicate_rows_when_append_and_mark_atomic
    (units : List WorkUnit) (oracle : WorkUnit → Nat → Int) (evs : List Bool)
    (h : safe_events units oracle initState evs = true) :
    ((run_driver units oracle initState evs).rows.map rowKey).Nodup :=
  (driver_inv_run units oracle evs initState (driver_inv_init units) h).1

/-- The concrete schedule used by the C1 counterexample and witness. -/
def cexUnits : List WorkUnit := [⟨"France", "2024-01-05"⟩]

def cexOracle : WorkUnit → Nat → Int := fun _ i => 7 + i

/-- Enter the unit, fetch its three topics, append the row, get killed
before the done-set save, restart, re-enter the unit (its done key is
absent), resolve the topics from the cache and append again. -/
def cexEvents : List Bool :=
  [true, true, true, true, true, false, true, true, true, true, true]

/-- C1 counterexample: the row append and the DoneSet marking are two
separate durable steps; a kill between them makes the restarted run
append a second row for the same (country, week), so the output panel
can contain duplicate keys after an interrupted restart. -/
theorem c1_crash_between_append_and_mark_duplicates_row :
    ((run_driver cexUnits cexOracle initState cexEvents).rows.map rowKey)
      = [("France", "2024-01-05"), ("France", "2024-01-05")] ∧
    ¬ ((run_driver cexUnits cexOracle initState cexEvents).rows.map rowKey).Nodup :=
  ⟨by decide, by decide⟩

/-- A schedule whose only kill happens while topics are still being
resolved, a window the amended claim allows. -/
def safeEventsEx : List Bool :=
  [true, true, false, true, true, true, true, true, true, true]

/-- Witness for c1_no_duplicate_rows_when_append_and_mark_atomic at a
schedule with a mid-unit kill outside the append-to-mark window. -/
theorem c1_no_duplicate_rows_when_append_and_mark_atomic_witness :
    safe_events cexUnits cexOracle initState safeEventsEx = true ∧
    ((run_driver cexUnits cexOracle initState safeEventsEx).rows.map rowKey).Nodup :=
  ⟨by decide,
   c1_no_duplicate_rows_when_append_and_mark_atomic cexUnits cexOracle
     safeEventsEx (by decide)⟩

theorem lookupCache_append_left (c : List (String × Int)) (l2 : List (String × Int))
    (k : String) (v : Int) (h : lookupCache c k = some v) :
    lookupCache (c ++ l2) k = some v := by
  unfold lookupCache at h ⊢
  rw [List.find?_append]
  cases hf : c.find? (fun p => p.1 = k) with
  | none => rw [hf] at h; simp at h
  | some pr =>
      rw [hf] at h
      exact h

theorem driver_step_cache_mono (units : List WorkUnit)
    (oracle : WorkUnit → Nat → Int) (s : DriverState) (k : String) (v : Int)
    (h : lookupCache s.cache k = some v) :
    lookupCache (driver_step units oracle s).cache k = some v := by
  cases hu : units.get? s.cursor with
  | none =>
      have hstep : driver_step units oracle s = s := by
        simp only [driver_step, hu]
      rw [hstep]
      exact h
  | some u =>
      cases hp : s.ph with
      | idle =>
          by_cases hd : unit_done_key u ∈ s.done
          · have hstep : driver_step units oracle s = { s with cursor := s.cursor + 1 } := by
              simp only [driver_step, hu, hp, hd, if_true]
            rw [hstep]
            exact h
          · have hstep : driver_step units oracle s = { s with ph := .working [] } := by
              simp only [driver_step, hu, hp, hd, if_false]
            rw [hstep]
            exact h
      | working acc =>
          cases ht : TOPIC_NAMES.get? acc.length with
          | some tname =>
              cases hc : lookupCache s.cache (unit_cache_key u tname) with
              | some w =>
                  have hstep : driver_step units oracle s
                      = { s with ph := .working (acc ++ [w]) } := by
                    simp only [driver_step, hu, hp, ht, hc]
                  rw [hstep]
                  exact h
              | none =>
                  have hstep : driver_step units oracle s = { s with cache := s.cache ++ [(unit_cache_key u tname, oracle u acc.length)], nfetch := s.nfetch + 1, ph := .working (acc ++ [oracle u acc.length]) } := by
                    simp only [driver_step, hu, hp, ht, hc]
                  rw [hstep]
                  exact lookupCache_append_left s.cache _ k v h
          | none =>
              have hstep : driver_step units oracle s = { s with rows := s.rows ++ [⟨u.country, u.week, acc⟩], ph := .appended } := by
                simp only [driver_step, hu, hp, ht]
              rw [hstep]
              exact h
      | appended =>
          have hstep : driver_step units oracle s = { s with done := s.done ++ [unit_done_key u], ph := .marked } := by
            simp only [driver_step, hu, hp]
          rw [hstep]
          exact h
      | marked =>
          have hstep : driver_step units oracle s = { s with cursor := s.cursor + 1, ph := .idle } := by
            simp only [driver_step, hu, hp]
          rw [hstep]
          exact h

/-- C9: the cache is write-once and authoritative.  First conjunct: a
cached count is never overwritten — any later point of any schedule
(normal steps and kill-and-restarts alike) still maps the key to the
same value.  Second conjunct: on a cache hit the driver's next durable
step consumes the stored count into the row being built and changes
nothing else — in particular it performs no fetch (nfetch and cache are
unchanged and the fetch oracle is not consulted). -/
theorem c9_cache_write_once (units : List WorkUnit)
    (oracle : WorkUnit → Nat → Int) (evs : List Bool) (s : DriverState)
    (k : String) (v : Int) :
    (lookupCache s.cache k = some v →
      lookupCache (run_driver units oracle s evs).cache k = some v) ∧
    (∀ (u : WorkUnit) (acc : List Int) (tname : String),
      units.get? s.cursor = some u → s.ph = .working acc →
      TOPIC_NAMES.get? acc.length = some tname →
      lookupCache s.cache (unit_cache_key u tname) = some v →
      driver_step units oracle s = { s with ph := .working (acc ++ [v]) }) := by
  constructor
  · intro h
    induction evs generalizing s with
    | nil => exact h
    | cons e rest ih =>
        rw [run_driver]
        cases e with
        | true =>
            exact ih (driver_step units oracle s)
              (driver_step_cache_mono units oracle s k v h)
        | false => exact ih (driver_crash s) h
  · intro u acc tname hu hp ht hk
    simp only [driver_step, hu, hp, ht, hk]

/-- A state mid-unit with the violence count already cached. -/
def c9State : DriverState :=
  ⟨0, [], [(cache_key "France" "2024-01-05" WINDOW_DAYS "violence", 7)], [], 0,
    .working []⟩

/-- Witness for c9_cache_write_once: the cached France/violence count
survives a step-and-crash schedule unchanged, and the hit step only
extends the in-progress row with the cached 7. -/
theorem c9_cache_write_once_witness :
    (lookupCache c9State.cache
      (cache_key "France" "2024-01-05" WINDOW_DAYS "violence") = some 7) ∧
    lookupCache (run_driver cexUnits cexOracle c9State [true, false, true]).cache
      (cache_key "France" "2024-01-05" WINDOW_DAYS "violence") = some 7 ∧
    driver_step cexUnits cexOracle c9State = { c9State with ph := .working [7] } :=
  ⟨by decide,
   (c9_cache_write_once cexUnits cexOracle [true, false, true] c9State
     (cache_key "France" "2024-01-05" WINDOW_DAYS "violence") 7).1 (by decide),
   (c9_cache_write_once cexUnits cexOracle [true, false, true] c9State
     (cache_key "France" "2024-01-05" WINDOW_DAYS "violence") 7).2
     ⟨"France", "2024-01-05"⟩ [] "violence" (by decide) rfl (by decide) (by decide)⟩

end BlueLance
